import Mathlib

/-!
# Scan console: multi-job monitoring logic

A shallow embedding of the job-monitoring code of `frontend/src/App.jsx`:
`fetchActiveJobs`, `startProgressStream` (with its `onmessage` and `onerror`
handlers and the removal timer), `launchScan` and `launchAll`.

The React state `activeJobs` is a plain JavaScript object. Every write to it
in the source goes through `setActiveJobs`, either with an updater function
(`prev => ...`) or, in `fetchActiveJobs`, with a whole new object. React
applies queued updaters in the order of the calls, so the model applies each
of them at the point of the call.

The browser is single threaded: every callback (the continuation of an
`await`, an `EventSource` handler, a `setTimeout` callback) runs to completion
before the next one starts. One callback is one `Event` of the model.

Scope of the value model: property values are JavaScript primitives, response
bodies are JSON objects or arrays of JSON objects, and the order in which a
JavaScript object enumerates integer-like keys is not represented (objects
keep their properties in creation order; no statement below depends on the
order).
-/

namespace ScanConsole

/-! ## JavaScript values and objects -/

/-- Primitive JavaScript values, as they occur in decoded JSON and as
arguments of the functions of `App.jsx`. -/
inductive JsVal where
  | undefined
  | null
  | bool (b : Bool)
  | num (n : Int)
  | str (s : String)
  deriving DecidableEq, Repr

/-- A plain JavaScript object: its own properties, in creation order. -/
abbrev JsObject (α : Type) := List (String × α)

/-- Property read `o[k]`; `none` when `o` has no own property `k`. -/
def getProp {α : Type} : JsObject α → String → Option α
  | [], _ => none
  | (k', v) :: rest, k => if k' = k then some v else getProp rest k

/-- The object `{ ...o, [k]: v }`: a copy of `o` in which `k` holds `v`. An
existing property keeps its position, a new one is added at the end. -/
def setProp {α : Type} : JsObject α → String → α → JsObject α
  | [], k, v => [(k, v)]
  | (k', v') :: rest, k, v =>
    if k' = k then (k, v) :: rest else (k', v') :: setProp rest k v

/-- The object left by `const next = { ...o }; delete next[k]`. -/
def deleteProp {α : Type} (o : JsObject α) (k : String) : JsObject α :=
  o.filter (fun p => !(p.1 == k))

/-- The set of own property names of an object. It is a set: the order in
which `Object.keys` lists the names is not represented. -/
def keys {α : Type} (o : JsObject α) : Finset String := (o.map Prod.fst).toFinset

/-- One entry of `activeJobs`: the displayed record of a job. -/
abbrev Entry := JsObject JsVal

/-- The `activeJobs` state: job id to entry. -/
abbrev Registry := JsObject Entry

/-- Member access `o.k` on an object: `undefined` when the property is
missing. -/
def field (o : Entry) (k : String) : JsVal := (getProp o k).getD JsVal.undefined

/-- Conversion of a value to a property key (computed key `[jobId]`) and to
its text in a template literal. -/
def toPropertyKey : JsVal → String
  | JsVal.undefined => "undefined"
  | JsVal.null => "null"
  | JsVal.bool true => "true"
  | JsVal.bool false => "false"
  | JsVal.num n => toString n
  | JsVal.str s => s

/-- The test `data.state === 'completed' || data.state === 'aborted'`. -/
def isTerminalState (v : JsVal) : Bool :=
  v == JsVal.str "completed" || v == JsVal.str "aborted"

/-- The object literal `{ state: 'starting', config_name: configName,
progress: '0/0', current_target: 'Preparing...' }` of `launchScan` and
`launchAll`. -/
def placeholder (configName : JsVal) : Entry :=
  [("state", JsVal.str "starting"), ("config_name", configName),
   ("progress", JsVal.str "0/0"), ("current_target", JsVal.str "Preparing...")]

/-! ## Inputs from the outside -/

/-- The body of an HTTP response after `res.json()`. -/
inductive Body where
  | object (o : Entry)
  | array (items : List Entry)
  deriving DecidableEq, Repr

/-- What `await fetch(...)` followed by `await res.json()` yields.
`networkError`: `fetch` rejects (backend unreachable). `notJson`: the body is
not JSON text, `res.json()` rejects. `json ok body`: a JSON body arrived;
`ok` is `res.ok` (status 200..299), which the source never reads. -/
inductive Response where
  | networkError
  | notJson
  | json (ok : Bool) (body : Body)
  deriving DecidableEq, Repr

/-- The result of `JSON.parse(event.data)` in `onmessage`: a `SyntaxError`
for malformed text, or the decoded object. -/
inductive Payload where
  | malformed
  | object (data : Entry)
  deriving DecidableEq, Repr

/-- How an `async` function of the source settles its promise. -/
inductive Completion where
  | fulfilled
  | rejected
  deriving DecidableEq, Repr

/-- How an event handler ends: it returns, or an exception leaves it. -/
inductive HandlerResult where
  | returned
  | threw
  deriving DecidableEq, Repr

/-! ## State of the monitoring logic -/

/-- One `EventSource` created by `startProgressStream`, with the variables
its handlers close over. `closed` is `readyState === CLOSED`. -/
structure Channel where
  jobId : String
  configName : JsVal
  closed : Bool
  deriving DecidableEq, Repr

/-- One pending `setTimeout(..., 3000)` callback of `onmessage`. `due` is the
earliest time (ms) at which the browser may run it. -/
structure Timer where
  jobId : String
  due : Nat
  deriving DecidableEq, Repr

/-- The state the monitoring code reads and writes. -/
structure Sys where
  now : Nat
  activeJobs : Registry
  channels : List Channel
  timers : List Timer
  resultFetches : Nat
  consoleErrors : Nat
  deriving DecidableEq, Repr

/-- The state right after the component mounts. -/
def Sys.start : Sys :=
  { now := 0, activeJobs := [], channels := [], timers := [],
    resultFetches := 0, consoleErrors := 0 }

/-- The delay passed to `setTimeout` in `onmessage`. -/
def removalDelay : Nat := 3000

/-- A call of `console.error`. -/
def logError (σ : Sys) : Sys := { σ with consoleErrors := σ.consoleErrors + 1 }

/-- The call `eventSource.close()` on the channel with index `c`. -/
def closeAt : List Channel → Nat → List Channel
  | [], _ => []
  | ch :: rest, 0 => { ch with closed := true } :: rest
  | ch :: rest, n + 1 => ch :: closeAt rest n

/-- Body of `startProgressStream(jobId, configName)`: a new `EventSource` is
created and its two handlers are installed. -/
def startProgressStream (σ : Sys) (jobId : String) (configName : JsVal) : Sys :=
  { σ with channels := σ.channels ++ [{ jobId := jobId, configName := configName, closed := false }] }

/-- The updater of `onmessage`:
`prev => ({ ...prev, [jobId]: { ...data, config_name: configName } })`. -/
def upsertProgress (prev : Registry) (jobId : String) (data : Entry) (configName : JsVal) :
    Registry :=
  setProp prev jobId (setProp data "config_name" configName)

/-- The handler `eventSource.onmessage` of the channel with index `c`, whose
closure holds `ch.jobId` and `ch.configName`. -/
def onmessage (σ : Sys) (c : Nat) (ch : Channel) (payload : Payload) : Sys × HandlerResult :=
  match payload with
  | Payload.malformed => (σ, HandlerResult.threw)
  | Payload.object data =>
    let σ1 := { σ with activeJobs := upsertProgress σ.activeJobs ch.jobId data ch.configName }
    if isTerminalState (field data "state") then
      ({ σ1 with
          channels := closeAt σ1.channels c
          timers := σ1.timers ++ [{ jobId := ch.jobId, due := σ1.now + removalDelay }] },
        HandlerResult.returned)
    else
      (σ1, HandlerResult.returned)

/-- The handler `eventSource.onerror` of the channel with index `c`. -/
def onerror (σ : Sys) (c : Nat) : Sys :=
  { logError σ with channels := closeAt σ.channels c }

/-- The callback passed to `setTimeout` in `onmessage`: the entry of `jobId`
is deleted and `fetchResults()` is called. -/
def removalCallback (σ : Sys) (jobId : String) : Sys :=
  { σ with
      activeJobs := deleteProp σ.activeJobs jobId
      resultFetches := σ.resultFetches + 1 }

/-- The expression `job.job_id` of an object, used as computed key and in the
stream URL. -/
def jobIdOf (job : Entry) : String := toPropertyKey (field job "job_id")

/-- The expression `data.job_id` on a response body. On an array body the
property is missing. -/
def Body.jobKey : Body → String
  | Body.object o => jobIdOf o
  | Body.array _ => toPropertyKey JsVal.undefined

/-- Continuation of `launchScan(id, configName)` once the launch request has
settled with `resp`. The request URL is built from `id`; nothing else reads
it. -/
def launchScan (σ : Sys) (_id : JsVal) (configName : JsVal) (resp : Response) :
    Sys × Completion :=
  match resp with
  | Response.networkError => (logError σ, Completion.fulfilled)
  | Response.notJson => (logError σ, Completion.fulfilled)
  | Response.json _ data =>
    let jobId := data.jobKey
    let σ1 := { σ with activeJobs := setProp σ.activeJobs jobId (placeholder configName) }
    (startProgressStream σ1 jobId configName, Completion.fulfilled)

/-- One turn of the `launched.forEach` loop of `launchAll`. -/
def launchAllItem (σ : Sys) (job : Entry) : Sys :=
  let jobId := jobIdOf job
  let σ1 := { σ with
    activeJobs := setProp σ.activeJobs jobId (placeholder (field job "config_name")) }
  startProgressStream σ1 jobId (field job "config_name")

/-- Continuation of `launchAll()` once the bulk request has settled. A body
that is not an array has no `forEach`: the `TypeError` is caught and logged. -/
def launchAll (σ : Sys) (resp : Response) : Sys × Completion :=
  match resp with
  | Response.networkError => (logError σ, Completion.fulfilled)
  | Response.notJson => (logError σ, Completion.fulfilled)
  | Response.json _ (Body.object _) => (logError σ, Completion.fulfilled)
  | Response.json _ (Body.array launched) =>
    (launched.foldl launchAllItem σ, Completion.fulfilled)

/-- One turn of the `data.forEach` loop of `fetchActiveJobs`, on the local
object `active` and the state. -/
def fetchActiveItem (acc : Registry × Sys) (job : Entry) : Registry × Sys :=
  (setProp acc.1 (jobIdOf job) job,
   startProgressStream acc.2 (jobIdOf job) (field job "config_name"))

/-- Continuation of `fetchActiveJobs()` once the request has settled: the
loop fills `active` and opens the streams, then `setActiveJobs(active)`
replaces the whole registry. -/
def fetchActiveJobs (σ : Sys) (resp : Response) : Sys × Completion :=
  match resp with
  | Response.networkError => (logError σ, Completion.fulfilled)
  | Response.notJson => (logError σ, Completion.fulfilled)
  | Response.json _ (Body.object _) => (logError σ, Completion.fulfilled)
  | Response.json _ (Body.array data) =>
    let acc := data.foldl fetchActiveItem ([], σ)
    ({ acc.2 with activeJobs := acc.1 }, Completion.fulfilled)

/-! ## Executions -/

/-- The callbacks the browser can run. -/
inductive Event where
  | advance (dt : Nat)
  | activeJobsFetched (resp : Response)
  | launchScanSettled (id : JsVal) (configName : JsVal) (resp : Response)
  | launchAllSettled (resp : Response)
  | message (c : Nat) (payload : Payload)
  | transportError (c : Nat)
  | timerFires (i : Nat)
  deriving DecidableEq, Repr

/-- Delivery of a message event to channel `c`: a closed `EventSource`
dispatches nothing. An exception leaving the handler is reported by the
browser and the page goes on. -/
def deliverMessage (σ : Sys) (c : Nat) (payload : Payload) : Sys :=
  match σ.channels[c]? with
  | some ch => if ch.closed then σ else (onmessage σ c ch payload).1
  | none => σ

/-- Delivery of an error event to channel `c`. -/
def deliverError (σ : Sys) (c : Nat) : Sys :=
  match σ.channels[c]? with
  | some ch => if ch.closed then σ else onerror σ c
  | none => σ

/-- The browser runs the pending timer with index `i`, which it does only
once its delay has elapsed. The timer is then no longer pending. -/
def fireTimer (σ : Sys) (i : Nat) : Sys :=
  match σ.timers[i]? with
  | some t =>
    if t.due ≤ σ.now then
      removalCallback { σ with timers := σ.timers.eraseIdx i } t.jobId
    else σ
  | none => σ

/-- One callback. -/
def step (σ : Sys) : Event → Sys
  | Event.advance dt => { σ with now := σ.now + dt }
  | Event.activeJobsFetched resp => (fetchActiveJobs σ resp).1
  | Event.launchScanSettled id configName resp => (launchScan σ id configName resp).1
  | Event.launchAllSettled resp => (launchAll σ resp).1
  | Event.message c payload => deliverMessage σ c payload
  | Event.transportError c => deliverError σ c
  | Event.timerFires i => fireTimer σ i

/-- The state after a sequence of callbacks. -/
def run (σ : Sys) (tr : List Event) : Sys := tr.foldl step σ

/-- The job ids for which a callback calls `startProgressStream`. -/
def startedIds : Event → List String
  | Event.activeJobsFetched (Response.json _ (Body.array data)) => data.map jobIdOf
  | Event.launchScanSettled _ _ (Response.json _ body) => [body.jobKey]
  | Event.launchAllSettled (Response.json _ (Body.array launched)) => launched.map jobIdOf
  | _ => []

/-- The job ids whose removal callback runs along an execution from `σ`, in
the order in which they run. -/
def firedJobs : Sys → List Event → List String
  | _, [] => []
  | σ, Event.timerFires i :: rest =>
    (match σ.timers[i]? with
      | some t => if t.due ≤ σ.now then [t.jobId] else []
      | none => []) ++ firedJobs (fireTimer σ i) rest
  | σ, e :: rest => firedJobs (step σ e) rest

/-- Position of a state value in the order
`starting < running < {completed, aborted}`; `none` for any other value. -/
def stateRank : JsVal → Option Nat
  | JsVal.str s =>
    if s = "starting" then some 0
    else if s = "running" then some 1
    else if s = "completed" then some 2
    else if s = "aborted" then some 2
    else none
  | _ => none

/-- The `state` shown for job `j`, when it has an entry. -/
def shownState (σ : Sys) (j : String) : Option JsVal :=
  (getProp σ.activeJobs j).map (fun e => field e "state")

/-! ## Concrete executions -/

/-- A progress message with all three fields. -/
def progressMsg (state progress target : String) : Payload :=
  Payload.object [("state", JsVal.str state), ("progress", JsVal.str progress),
    ("current_target", JsVal.str target)]

/-- The launch response `{ job_id: "abc123" }` with status 200. -/
def launchedAbc : Response :=
  Response.json true (Body.object [("job_id", JsVal.str "abc123")])

/-- The state after `launchScan(1, "Example")` got job id `abc123` from the
backend, right after mounting. -/
def exampleLaunched : Sys :=
  (launchScan Sys.start (JsVal.num 1) (JsVal.str "Example") launchedAbc).1

/-- The bulk response `[{job_id: "1", config_name: "A"}, {job_id: "2",
config_name: "B"}]`. -/
def launchedAB : Response :=
  Response.json true (Body.array
    [[("job_id", JsVal.str "1"), ("config_name", JsVal.str "A")],
     [("job_id", JsVal.str "2"), ("config_name", JsVal.str "B")]])

/-- The state after `launchAll()` got `launchedAB`, right after mounting. -/
def exampleLaunchedAB : Sys := (launchAll Sys.start launchedAB).1

/-- The value of property `f` of the entry of job `j`, when both exist. -/
def entryProp (σ : Sys) (j f : String) : Option JsVal :=
  (getProp σ.activeJobs j).bind (fun e => getProp e f)

/-- The rank of the state shown for job `j` does not go down from `before` to
`after`. -/
def StateNotBackward (before after : Sys) (j : String) : Prop :=
  ∀ r r' : Nat, (shownState before j).bind stateRank = some r →
    (shownState after j).bind stateRank = some r' → r ≤ r'

/-! ## Properties of executions -/

/-- The job ids for which `startProgressStream` is called along a sequence of
callbacks, in call order. -/
def startedIdsOf : List Event → List String
  | [] => []
  | e :: rest => startedIds e ++ startedIdsOf rest

/-- Along the execution `tr` from the mounted state, an update with state
`completed` or `aborted` was handled at time `t` by an open channel of job
`j`. -/
def TerminalUpdateAt (tr : List Event) (j : String) (t : Nat) : Prop :=
  ∃ (pre suf : List Event) (c : Nat) (ch : Channel) (data : Entry),
    tr = pre ++ Event.message c (Payload.object data) :: suf ∧
    (run Sys.start pre).channels[c]? = some ch ∧ ch.closed = false ∧ ch.jobId = j ∧
    isTerminalState (field data "state") = true ∧ (run Sys.start pre).now = t

/-- What holds of channels, timers and entries as long as no job id is handed
to `startProgressStream` twice. -/
structure OneStreamPerJob (σ : Sys) : Prop where
  channelIds : (σ.channels.map Channel.jobId).Nodup
  timerIds : (σ.timers.map Timer.jobId).Nodup
  timerClosed : ∀ tm ∈ σ.timers, ∀ ch ∈ σ.channels, ch.jobId = tm.jobId → ch.closed = true
  timerHasChannel : ∀ tm ∈ σ.timers, tm.jobId ∈ σ.channels.map Channel.jobId
  timerTerminal : ∀ tm ∈ σ.timers, ∀ entry : Entry,
    getProp σ.activeJobs tm.jobId = some entry → isTerminalState (field entry "state") = true

/-- The jobs `done` whose removal callback has run have no pending timer and
no open channel. -/
structure RemovedStayRemoved (σ : Sys) (done : List String) : Prop where
  doneIds : done.Nodup
  noTimer : ∀ j ∈ done, j ∉ σ.timers.map Timer.jobId
  doneClosed : ∀ j ∈ done, ∀ ch ∈ σ.channels, ch.jobId = j → ch.closed = true
  doneHasChannel : ∀ j ∈ done, j ∈ σ.channels.map Channel.jobId

/-- The answer of `/jobs/active` that lists job `abc123` as running. -/
def activeAbc : Response :=
  Response.json true (Body.array
    [[("job_id", JsVal.str "abc123"), ("config_name", JsVal.str "Example"),
      ("state", JsVal.str "running"), ("progress", JsVal.str "1/5"),
      ("current_target", JsVal.str "host2")]])

/-- An execution in which the launch of job `abc123` settles before the
initial `/jobs/active` request, whose answer already lists that job. -/
def raceTrace : List Event :=
  [Event.launchScanSettled (JsVal.num 1) (JsVal.str "Example") launchedAbc,
   Event.activeJobsFetched activeAbc]

/-- An execution in which the backend hands out job id `abc123` a second time
while the removal timer of the first job is pending. -/
def reuseTrace : List Event :=
  [Event.launchScanSettled (JsVal.num 1) (JsVal.str "Example") launchedAbc,
   Event.message 0 (progressMsg "completed" "5/5" "done"),
   Event.launchScanSettled (JsVal.num 1) (JsVal.str "Example") launchedAbc,
   Event.advance 3000]

/-- The scenario of the running example up to the moment the removal timer
may run: launch of `abc123`, its `completed` update, 3000 ms. -/
def completedTrace : List Event :=
  [Event.launchScanSettled (JsVal.num 1) (JsVal.str "Example") launchedAbc,
   Event.message 0 (progressMsg "completed" "5/5" "done"),
   Event.advance 3000]

/-- The execution `raceTrace` followed by the `completed` update arriving on
both channels of job `abc123`. -/
def raceTerminated : List Event :=
  raceTrace ++
    [Event.message 0 (progressMsg "completed" "5/5" "done"),
     Event.message 1 (progressMsg "completed" "5/5" "done")]

/-- A bulk launch of jobs `1` and `2`, both of which complete and are removed
after the delay. -/
def bulkTrace : List Event :=
  [Event.launchAllSettled launchedAB,
   Event.message 0 (progressMsg "completed" "5/5" "done"),
   Event.message 1 (progressMsg "aborted" "2/5" "host3"),
   Event.advance 3000,
   Event.timerFires 0,
   Event.timerFires 0]

/-- The execution that consists of the settled launch of `abc123` only; it
ends in `exampleLaunched`. -/
def launchedTrace : List Event :=
  [Event.launchScanSettled (JsVal.num 1) (JsVal.str "Example") launchedAbc]

/-! ## Object operations -/

theorem getProp_setProp_same {α : Type} (o : JsObject α) (k : String) (v : α) :
    getProp (setProp o k v) k = some v := by
  induction o with
  | nil => simp [setProp, getProp]
  | cons p rest ih =>
    obtain ⟨k', v'⟩ := p
    by_cases h : k' = k
    · simp [setProp, getProp, h]
    · simp [setProp, getProp, h, ih]

theorem getProp_setProp_ne {α : Type} (o : JsObject α) (k k' : String) (v : α) (h : k' ≠ k) :
    getProp (setProp o k v) k' = getProp o k' := by
  induction o with
  | nil => simp [setProp, getProp, Ne.symm h]
  | cons p rest ih =>
    obtain ⟨k1, v1⟩ := p
    by_cases h1 : k1 = k
    · subst h1
      simp [setProp, getProp, Ne.symm h]
    · simp [setProp, getProp, h1, ih]

theorem getProp_deleteProp_same {α : Type} (o : JsObject α) (k : String) :
    getProp (deleteProp o k) k = none := by
  induction o with
  | nil => simp [deleteProp, getProp]
  | cons p rest ih =>
    obtain ⟨k1, v1⟩ := p
    by_cases h1 : k1 = k
    · simpa [deleteProp, List.filter_cons, h1] using ih
    · simpa [deleteProp, List.filter_cons, h1, getProp] using ih

theorem getProp_deleteProp_ne {α : Type} (o : JsObject α) (k k' : String) (h : k' ≠ k) :
    getProp (deleteProp o k) k' = getProp o k' := by
  induction o with
  | nil => simp [deleteProp, getProp]
  | cons p rest ih =>
    obtain ⟨k1, v1⟩ := p
    by_cases h1 : k1 = k
    · subst h1
      simpa [deleteProp, List.filter_cons, getProp, Ne.symm h] using ih
    · by_cases h2 : k1 = k'
      · subst h2
        simp [deleteProp, List.filter_cons, h1, getProp]
      · simpa [deleteProp, List.filter_cons, h1, getProp, h2] using ih

theorem setProp_setProp_same {α : Type} (o : JsObject α) (k : String) (v w : α) :
    setProp (setProp o k v) k w = setProp o k w := by
  induction o with
  | nil => simp [setProp]
  | cons p rest ih =>
    obtain ⟨k1, v1⟩ := p
    by_cases h1 : k1 = k
    · simp [setProp, h1]
    · simp [setProp, h1, ih]

/-! ## Channels -/

theorem closeAt_getElem?_same (chs : List Channel) (c : Nat) (ch : Channel)
    (h : chs[c]? = some ch) : (closeAt chs c)[c]? = some { ch with closed := true } := by
  induction chs generalizing c with
  | nil => simp at h
  | cons x rest ih =>
    cases c with
    | zero =>
      simp at h
      simp [closeAt, h]
    | succ n =>
      simp at h
      simpa [closeAt] using ih n h

theorem map_jobId_closeAt (chs : List Channel) (c : Nat) :
    (closeAt chs c).map Channel.jobId = chs.map Channel.jobId := by
  induction chs generalizing c with
  | nil => simp [closeAt]
  | cons x rest ih =>
    cases c with
    | zero => simp [closeAt]
    | succ n => simp [closeAt, ih n]

theorem deliverMessage_closed (σ : Sys) (c : Nat) (ch : Channel) (payload : Payload)
    (h : σ.channels[c]? = some ch) (hc : ch.closed = true) :
    deliverMessage σ c payload = σ := by
  simp [deliverMessage, h, hc]

theorem deliverMessage_open (σ : Sys) (c : Nat) (ch : Channel) (payload : Payload)
    (h : σ.channels[c]? = some ch) (hc : ch.closed = false) :
    deliverMessage σ c payload = (onmessage σ c ch payload).1 := by
  simp [deliverMessage, h, hc]

theorem run_messages_closed (σ : Sys) (c : Nat) (ch : Channel) (later : List Payload)
    (h : σ.channels[c]? = some ch) (hc : ch.closed = true) :
    run σ (later.map (Event.message c)) = σ := by
  induction later with
  | nil => rfl
  | cons p rest ih =>
    simp only [List.map_cons, run, List.foldl_cons, step]
    rw [deliverMessage_closed σ c ch p h hc]
    exact ih

theorem field_setProp_ne (o : Entry) (k f : String) (v : JsVal) (h : f ≠ k) :
    field (setProp o k v) f = field o f := by
  simp [field, getProp_setProp_ne o k f v h]

/-! ## Progress updates (C1, C2, C10) -/

theorem activeJobs_onmessage_object (σ : Sys) (c : Nat) (ch : Channel) (data : Entry) :
    (onmessage σ c ch (Payload.object data)).1.activeJobs =
      upsertProgress σ.activeJobs ch.jobId data ch.configName := by
  simp only [onmessage]
  split <;> rfl

/-- C1, counterexample: after `launchScan` the job `abc123` shows `starting`;
a `running` update and then a `starting` update on its channel are both
applied, and the shown state goes from `running` back to `starting`. -/
theorem C1_state_moves_backward :
    shownState exampleLaunched "abc123" = some (JsVal.str "starting") ∧
    shownState (step exampleLaunched (Event.message 0 (progressMsg "running" "3/5" "host4")))
      "abc123" = some (JsVal.str "running") ∧
    shownState (step (step exampleLaunched (Event.message 0 (progressMsg "running" "3/5" "host4")))
      (Event.message 0 (progressMsg "starting" "0/5" "host1"))) "abc123"
      = some (JsVal.str "starting") ∧
    ¬ StateNotBackward
      (step exampleLaunched (Event.message 0 (progressMsg "running" "3/5" "host4")))
      (step (step exampleLaunched (Event.message 0 (progressMsg "running" "3/5" "host4")))
        (Event.message 0 (progressMsg "starting" "0/5" "host1"))) "abc123" := by
  refine ⟨by decide, by decide, by decide, ?_⟩
  intro h
  have h10 := h 1 0 (by decide) (by decide)
  omega

/-- C1, amended: an update delivered on an open channel sets the shown state
of the channel's job to the `state` carried by the update, whatever state was
shown before; and once the update carries `completed` or `aborted`, no later
message on that channel changes anything. -/
theorem C1_state_follows_update (σ : Sys) (c : Nat) (ch : Channel) (data : Entry)
    (hch : σ.channels[c]? = some ch) (hopen : ch.closed = false) :
    shownState (step σ (Event.message c (Payload.object data))) ch.jobId
      = some (field data "state") ∧
    (isTerminalState (field data "state") = true →
      ∀ later : List Payload,
        run (step σ (Event.message c (Payload.object data))) (later.map (Event.message c))
          = step σ (Event.message c (Payload.object data))) := by
  constructor
  · simp only [step, deliverMessage_open σ c ch _ hch hopen, shownState,
      activeJobs_onmessage_object, upsertProgress, getProp_setProp_same, Option.map_some']
    rw [field_setProp_ne data "config_name" "state" ch.configName (by decide)]
  · intro hterm later
    apply run_messages_closed _ c { ch with closed := true } later
    · simp only [step, deliverMessage_open σ c ch _ hch hopen, onmessage, hterm, if_true]
      exact closeAt_getElem?_same σ.channels c ch hch
    · rfl

/-- C1, witness: the amended statement at the `completed` update of the
running example. -/
theorem C1_state_follows_update_witness :
    shownState (step exampleLaunched (Event.message 0 (progressMsg "completed" "5/5" "done")))
      "abc123" = some (JsVal.str "completed") ∧
    run (step exampleLaunched (Event.message 0 (progressMsg "completed" "5/5" "done")))
      ([progressMsg "running" "3/5" "host4"].map (Event.message 0))
      = step exampleLaunched (Event.message 0 (progressMsg "completed" "5/5" "done")) :=
  ⟨(C1_state_follows_update exampleLaunched 0
      { jobId := "abc123", configName := JsVal.str "Example", closed := false }
      [("state", JsVal.str "completed"), ("progress", JsVal.str "5/5"),
        ("current_target", JsVal.str "done")] (by decide) (by decide)).1,
   (C1_state_follows_update exampleLaunched 0
      { jobId := "abc123", configName := JsVal.str "Example", closed := false }
      [("state", JsVal.str "completed"), ("progress", JsVal.str "5/5"),
        ("current_target", JsVal.str "done")] (by decide) (by decide)).2 (by decide) _⟩

/-- C2, counterexample: job `abc123` shows progress `0/0`; an update that
carries only `state` is applied, and afterwards the entry has no `progress`
and no `current_target` property. -/
theorem C2_absent_fields_are_dropped :
    getProp [("state", JsVal.str "running")] "progress" = (none : Option JsVal) ∧
    entryProp exampleLaunched "abc123" "progress" = some (JsVal.str "0/0") ∧
    entryProp exampleLaunched "abc123" "current_target" = some (JsVal.str "Preparing...") ∧
    entryProp (step exampleLaunched
      (Event.message 0 (Payload.object [("state", JsVal.str "running")])))
      "abc123" "progress" = none ∧
    entryProp (step exampleLaunched
      (Event.message 0 (Payload.object [("state", JsVal.str "running")])))
      "abc123" "current_target" = none := by
  decide

/-- C2, amended: after an update is applied on an open channel, the entry of
the channel's job is the update itself with `config_name` set to the
channel's configuration name: every other property has exactly the value the
update gives it and is absent when the update does not carry it. -/
theorem C2_entry_is_the_update (σ : Sys) (c : Nat) (ch : Channel) (data : Entry)
    (hch : σ.channels[c]? = some ch) (hopen : ch.closed = false) :
    getProp (step σ (Event.message c (Payload.object data))).activeJobs ch.jobId
      = some (setProp data "config_name" ch.configName) ∧
    entryProp (step σ (Event.message c (Payload.object data))) ch.jobId "config_name"
      = some ch.configName ∧
    ∀ f : String, f ≠ "config_name" →
      entryProp (step σ (Event.message c (Payload.object data))) ch.jobId f = getProp data f := by
  have h : getProp (step σ (Event.message c (Payload.object data))).activeJobs ch.jobId
      = some (setProp data "config_name" ch.configName) := by
    simp only [step, deliverMessage_open σ c ch _ hch hopen, activeJobs_onmessage_object,
      upsertProgress, getProp_setProp_same]
  refine ⟨h, ?_, ?_⟩
  · simp only [entryProp, h, Option.some_bind, getProp_setProp_same]
  · intro f hf
    simp only [entryProp, h, Option.some_bind]
    exact getProp_setProp_ne data "config_name" f ch.configName hf

/-- C2, witness: the amended statement at the `state`-only update of the
running example. -/
theorem C2_entry_is_the_update_witness :
    getProp (step exampleLaunched
      (Event.message 0 (Payload.object [("state", JsVal.str "running")]))).activeJobs "abc123"
      = some [("state", JsVal.str "running"), ("config_name", JsVal.str "Example")] :=
  (C2_entry_is_the_update exampleLaunched 0
    { jobId := "abc123", configName := JsVal.str "Example", closed := false }
    [("state", JsVal.str "running")] (by decide) (by decide)).1

/-- C10: the updater of `onmessage` gives the same registry when it is applied
twice with the same job id, update and configuration name as when it is
applied once; and delivering the same message twice in a row on a channel
leaves the same registry as delivering it once. -/
theorem C10_upsert_idempotent (prev : Registry) (jobId : String) (data : Entry)
    (configName : JsVal) :
    upsertProgress (upsertProgress prev jobId data configName) jobId data configName
      = upsertProgress prev jobId data configName ∧
    ∀ (σ : Sys) (c : Nat) (payload : Payload),
      (step (step σ (Event.message c payload)) (Event.message c payload)).activeJobs
        = (step σ (Event.message c payload)).activeJobs := by
  constructor
  · simp only [upsertProgress, setProp_setProp_same]
  · intro σ c payload
    simp only [step]
    cases hch : σ.channels[c]? with
    | none => simp [deliverMessage, hch]
    | some ch =>
      cases hc : ch.closed with
      | true => simp [deliverMessage_closed σ c ch _ hch hc]
      | false =>
        rw [deliverMessage_open σ c ch _ hch hc]
        cases payload with
        | malformed => simp [onmessage, deliverMessage, hch, hc]
        | object data =>
          cases ht : isTerminalState (field data "state") with
          | true =>
            have hcl : (onmessage σ c ch (Payload.object data)).1.channels[c]?
                = some { ch with closed := true } := by
              simp only [onmessage, ht, if_true]
              exact closeAt_getElem?_same σ.channels c ch hch
            rw [deliverMessage_closed _ c _ _ hcl rfl]
          | false =>
            have hsame : (onmessage σ c ch (Payload.object data)).1.channels[c]? = some ch := by
              simp [onmessage, ht, hch]
            rw [deliverMessage_open _ c ch _ hsame hc]
            simp only [activeJobs_onmessage_object, upsertProgress, setProp_setProp_same]

/-! ## Launching one scan and independence of entries (C4, C5, C7, C8) -/

theorem activeJobs_fireTimer (σ : Sys) (i : Nat) (t : Timer) (h : σ.timers[i]? = some t) :
    (fireTimer σ i).activeJobs =
      if t.due ≤ σ.now then deleteProp σ.activeJobs t.jobId else σ.activeJobs := by
  simp only [fireTimer, h]
  split <;> rfl

/-- C4: for two distinct job ids `a` and `b`, the placeholder insertion of
`launchScan` and of one turn of `launchAll` for `a`, a message delivered on a
channel of `a`, and the removal timer of `a` all leave the lookup of `b` in
the registry as it was (same entry if present, absent if absent). -/
theorem C4_other_entry_untouched (σ : Sys) (a b : String) (hab : a ≠ b) :
    (∀ (id configName : JsVal) (ok : Bool) (body : Body), body.jobKey = a →
      getProp (launchScan σ id configName (Response.json ok body)).1.activeJobs b
        = getProp σ.activeJobs b) ∧
    (∀ job : Entry, jobIdOf job = a →
      getProp (launchAllItem σ job).activeJobs b = getProp σ.activeJobs b) ∧
    (∀ (c : Nat) (ch : Channel) (payload : Payload), σ.channels[c]? = some ch → ch.jobId = a →
      getProp (step σ (Event.message c payload)).activeJobs b = getProp σ.activeJobs b) ∧
    (∀ (i : Nat) (t : Timer), σ.timers[i]? = some t → t.jobId = a →
      getProp (step σ (Event.timerFires i)).activeJobs b = getProp σ.activeJobs b) := by
  refine ⟨?_, ?_, ?_, ?_⟩
  · intro id configName ok body hk
    simp only [launchScan, startProgressStream, hk]
    exact getProp_setProp_ne _ a b _ (Ne.symm hab)
  · intro job hk
    simp only [launchAllItem, startProgressStream, hk]
    exact getProp_setProp_ne _ a b _ (Ne.symm hab)
  · intro c ch payload hch hj
    simp only [step]
    cases hc : ch.closed with
    | true => rw [deliverMessage_closed σ c ch _ hch hc]
    | false =>
      rw [deliverMessage_open σ c ch _ hch hc]
      cases payload with
      | malformed => rfl
      | object data =>
        rw [activeJobs_onmessage_object, upsertProgress, hj]
        exact getProp_setProp_ne _ a b _ (Ne.symm hab)
  · intro i t ht hj
    simp only [step, activeJobs_fireTimer σ i t ht, hj]
    split
    · exact getProp_deleteProp_ne _ a b (Ne.symm hab)
    · rfl

/-- C4, witness: in the state after the bulk launch of jobs `1` and `2`, a
message on the channel of job `1` leaves the entry of job `2` as it was. -/
theorem C4_other_entry_untouched_witness :
    getProp (step exampleLaunchedAB (Event.message 0 (progressMsg "running" "0/5" "host1"))).activeJobs
      "2" = getProp exampleLaunchedAB.activeJobs "2" :=
  (C4_other_entry_untouched exampleLaunchedAB "1" "2" (by decide)).2.2.1 0
    { jobId := "1", configName := JsVal.str "A", closed := false }
    (progressMsg "running" "0/5" "host1") (by decide) rfl

/-- C5: when the launch call returns a body whose `job_id` is the string `j`,
`launchScan` leaves the registry mapping `j` to exactly the entry
`{ state: 'starting', config_name: configName, progress: '0/0',
current_target: 'Preparing...' }`: these four properties with these values
and no other property; it appends one open channel for `j` with that
configuration name, and fulfils its promise. -/
theorem C5_launchScan_placeholder (σ : Sys) (id configName : JsVal) (o : Entry) (j : String)
    (hj : field o "job_id" = JsVal.str j) :
    getProp (launchScan σ id configName (Response.json true (Body.object o))).1.activeJobs j
      = some [("state", JsVal.str "starting"), ("config_name", configName),
              ("progress", JsVal.str "0/0"), ("current_target", JsVal.str "Preparing...")] ∧
    entryProp (launchScan σ id configName (Response.json true (Body.object o))).1 j "state"
      = some (JsVal.str "starting") ∧
    entryProp (launchScan σ id configName (Response.json true (Body.object o))).1 j "config_name"
      = some configName ∧
    entryProp (launchScan σ id configName (Response.json true (Body.object o))).1 j "progress"
      = some (JsVal.str "0/0") ∧
    entryProp (launchScan σ id configName (Response.json true (Body.object o))).1 j
      "current_target" = some (JsVal.str "Preparing...") ∧
    (∀ f : String, f ≠ "state" → f ≠ "config_name" → f ≠ "progress" → f ≠ "current_target" →
      entryProp (launchScan σ id configName (Response.json true (Body.object o))).1 j f
        = none) ∧
    (launchScan σ id configName (Response.json true (Body.object o))).1.channels
      = σ.channels ++ [{ jobId := j, configName := configName, closed := false }] ∧
    (launchScan σ id configName (Response.json true (Body.object o))).2
      = Completion.fulfilled := by
  have hk : (Body.object o).jobKey = j := by
    simp [Body.jobKey, jobIdOf, hj, toPropertyKey]
  have hentry :
      getProp (launchScan σ id configName (Response.json true (Body.object o))).1.activeJobs j
        = some [("state", JsVal.str "starting"), ("config_name", configName),
                ("progress", JsVal.str "0/0"), ("current_target", JsVal.str "Preparing...")] := by
    simp only [launchScan, startProgressStream, hk]
    exact getProp_setProp_same _ j _
  refine ⟨hentry, ?_, ?_, ?_, ?_, ?_, ?_, rfl⟩
  · simp [entryProp, hentry, getProp]
  · simp [entryProp, hentry, getProp]
  · simp [entryProp, hentry, getProp]
  · simp [entryProp, hentry, getProp]
  · intro f h1 h2 h3 h4
    simp [entryProp, hentry, getProp, Ne.symm h1, Ne.symm h2, Ne.symm h3, Ne.symm h4]
  · simp only [launchScan, startProgressStream, hk]

/-- C5, witness: `launchScan(1, "Example")` with the backend answer
`{ job_id: "abc123" }`, right after mounting. -/
theorem C5_launchScan_placeholder_witness :
    getProp exampleLaunched.activeJobs "abc123"
      = some [("state", JsVal.str "starting"), ("config_name", JsVal.str "Example"),
              ("progress", JsVal.str "0/0"), ("current_target", JsVal.str "Preparing...")] ∧
    entryProp exampleLaunched "abc123" "config_name" = some (JsVal.str "Example") ∧
    exampleLaunched.channels
      = [{ jobId := "abc123", configName := JsVal.str "Example", closed := false }] :=
  ⟨(C5_launchScan_placeholder Sys.start (JsVal.num 1) (JsVal.str "Example")
      [("job_id", JsVal.str "abc123")] "abc123" (by decide)).1,
   (C5_launchScan_placeholder Sys.start (JsVal.num 1) (JsVal.str "Example")
      [("job_id", JsVal.str "abc123")] "abc123" (by decide)).2.2.1,
   (C5_launchScan_placeholder Sys.start (JsVal.num 1) (JsVal.str "Example")
      [("job_id", JsVal.str "abc123")] "abc123" (by decide)).2.2.2.2.2.2.1⟩

/-- C7, counterexample: with the backend unreachable, `launchScan` fulfils its
promise: nothing tells the caller that the launch failed. And when the
backend rejects the launch with an error status and a JSON error body, an
entry and a channel are created under the key `undefined`. -/
theorem C7_failure_not_reported :
    (launchScan Sys.start (JsVal.num 1) (JsVal.str "Example") Response.networkError).2
      ≠ Completion.rejected ∧
    (launchScan Sys.start (JsVal.num 1) (JsVal.str "Example") Response.networkError).2
      = Completion.fulfilled ∧
    getProp (launchScan Sys.start (JsVal.num 1) (JsVal.str "Example")
      (Response.json false (Body.object [("error", JsVal.str "Config not found")]))).1.activeJobs
      "undefined" = some (placeholder (JsVal.str "Example")) ∧
    (launchScan Sys.start (JsVal.num 1) (JsVal.str "Example")
      (Response.json false (Body.object [("error", JsVal.str "Config not found")]))).1.activeJobs
      ≠ Sys.start.activeJobs := by
  decide

/-- C7, amended: when the launch request throws (the backend is unreachable,
or the response body is not JSON), `launchScan` leaves the registry, the
channels and the timers as they were, logs the error on the console, and
fulfils its promise. -/
theorem C7_launch_failure_logged (σ : Sys) (id configName : JsVal) (resp : Response)
    (hfail : resp = Response.networkError ∨ resp = Response.notJson) :
    (launchScan σ id configName resp).1.activeJobs = σ.activeJobs ∧
    (launchScan σ id configName resp).1.channels = σ.channels ∧
    (launchScan σ id configName resp).1.timers = σ.timers ∧
    (launchScan σ id configName resp).1.consoleErrors = σ.consoleErrors + 1 ∧
    (launchScan σ id configName resp).2 = Completion.fulfilled := by
  rcases hfail with h | h <;> subst h <;> simp [launchScan, logError]

/-- C7, witness: a launch with the backend unreachable while job `abc123` is
shown. -/
theorem C7_launch_failure_logged_witness :
    (launchScan exampleLaunched (JsVal.num 2) (JsVal.str "Other") Response.networkError).1.activeJobs
      = exampleLaunched.activeJobs ∧
    (launchScan exampleLaunched (JsVal.num 2) (JsVal.str "Other") Response.networkError).2
      = Completion.fulfilled :=
  ⟨(C7_launch_failure_logged exampleLaunched (JsVal.num 2) (JsVal.str "Other")
      Response.networkError (Or.inl rfl)).1,
   (C7_launch_failure_logged exampleLaunched (JsVal.num 2) (JsVal.str "Other")
      Response.networkError (Or.inl rfl)).2.2.2.2⟩

/-- C8, counterexample: after a malformed message on the channel of job
`abc123` the channel is still open, and a later `running` message on it is
applied. -/
theorem C8_channel_stays_open :
    (step exampleLaunched (Event.message 0 Payload.malformed)).channels
      = [{ jobId := "abc123", configName := JsVal.str "Example", closed := false }] ∧
    shownState (step exampleLaunched (Event.message 0 Payload.malformed)) "abc123"
      = some (JsVal.str "starting") ∧
    shownState (step (step exampleLaunched (Event.message 0 Payload.malformed))
      (Event.message 0 (progressMsg "running" "0/5" "host1"))) "abc123"
      = some (JsVal.str "running") := by
  decide

/-- C8, amended: a message whose payload cannot be decoded leaves the whole
state as it was (registry, channels, timers): the exception leaves the
handler before any write, the entry keeps its last value, and the channel is
not closed, so that a later decodable message is handled as if the malformed
one had not arrived. -/
theorem C8_malformed_changes_nothing (σ : Sys) (c : Nat) (ch : Channel) (later : List Event) :
    onmessage σ c ch Payload.malformed = (σ, HandlerResult.threw) ∧
    step σ (Event.message c Payload.malformed) = σ ∧
    run σ (Event.message c Payload.malformed :: later) = run σ later := by
  have h : step σ (Event.message c Payload.malformed) = σ := by
    simp only [step, deliverMessage, onmessage]
    split
    · split <;> rfl
    · rfl
  refine ⟨rfl, h, ?_⟩
  simp only [run, List.foldl_cons, h]

/-! ## Bulk launch (C6) -/

theorem keys_setProp {α : Type} (o : JsObject α) (k : String) (v : α) :
    keys (setProp o k v) = insert k (keys o) := by
  induction o with
  | nil => simp [setProp, keys]
  | cons p rest ih =>
    obtain ⟨k1, v1⟩ := p
    simp only [keys] at ih
    by_cases h1 : k1 = k
    · subst h1
      simp [setProp, keys]
    · simp [setProp, keys, h1, ih, Finset.Insert.comm]

theorem activeJobs_launchAllItem (σ : Sys) (job : Entry) :
    (launchAllItem σ job).activeJobs
      = setProp σ.activeJobs (jobIdOf job) (placeholder (field job "config_name")) := rfl

theorem channels_launchAllItem (σ : Sys) (job : Entry) :
    (launchAllItem σ job).channels = σ.channels ++
      [{ jobId := jobIdOf job, configName := field job "config_name", closed := false }] := rfl

theorem channels_foldl_launchAllItem (launched : List Entry) (σ : Sys) :
    (launched.foldl launchAllItem σ).channels = σ.channels ++ launched.map
      (fun job => { jobId := jobIdOf job, configName := field job "config_name",
                    closed := false }) := by
  induction launched generalizing σ with
  | nil => simp
  | cons job rest ih => simp [ih, channels_launchAllItem]

theorem getProp_foldl_launchAllItem_of_not_mem (launched : List Entry) (σ : Sys) (k : String)
    (hk : k ∉ launched.map jobIdOf) :
    getProp (launched.foldl launchAllItem σ).activeJobs k = getProp σ.activeJobs k := by
  induction launched generalizing σ with
  | nil => rfl
  | cons job rest ih =>
    simp only [List.map_cons, List.mem_cons, not_or] at hk
    simp only [List.foldl_cons]
    rw [ih _ hk.2, activeJobs_launchAllItem]
    exact getProp_setProp_ne _ _ k _ hk.1

theorem getProp_foldl_launchAllItem_last (pre suf : List Entry) (job : Entry) (σ : Sys)
    (hlast : jobIdOf job ∉ suf.map jobIdOf) :
    getProp ((pre ++ job :: suf).foldl launchAllItem σ).activeJobs (jobIdOf job)
      = some (placeholder (field job "config_name")) := by
  simp only [List.foldl_append, List.foldl_cons]
  rw [getProp_foldl_launchAllItem_of_not_mem suf _ _ hlast, activeJobs_launchAllItem]
  exact getProp_setProp_same _ _ _

theorem keys_foldl_launchAllItem (launched : List Entry) (σ : Sys) :
    keys (launched.foldl launchAllItem σ).activeJobs
      = keys σ.activeJobs ∪ (launched.map jobIdOf).toFinset := by
  induction launched generalizing σ with
  | nil => simp
  | cons job rest ih =>
    simp only [List.foldl_cons, ih, activeJobs_launchAllItem, keys_setProp, List.map_cons,
      List.toFinset_cons]
    ext k
    simp only [Finset.mem_union, Finset.mem_insert, List.mem_toFinset]
    tauto

theorem exists_last_occurrence (launched : List Entry) (k : String)
    (hk : k ∈ launched.map jobIdOf) :
    ∃ (pre : List Entry) (job : Entry) (suf : List Entry),
      launched = pre ++ job :: suf ∧ jobIdOf job = k ∧ k ∉ suf.map jobIdOf := by
  induction launched with
  | nil => simp at hk
  | cons x rest ih =>
    by_cases hr : k ∈ rest.map jobIdOf
    · obtain ⟨pre, job, suf, h1, h2, h3⟩ := ih hr
      exact ⟨x :: pre, job, suf, by simp [h1], h2, h3⟩
    · simp only [List.map_cons, List.mem_cons] at hk
      rcases hk with hk | hk
      · exact ⟨[], x, rest, rfl, hk.symm, hr⟩
      · exact absurd hk hr

/-- C6: after `launchAll` has received the list `launched`, of length at most
`N`, the key set of the registry is the prior key set together with the job
ids of `launched`; the newly added keys number at most as many as `launched`
has members and hence at most `N`; every returned job id maps to the entry
`{ state: 'starting', config_name, progress: '0/0', current_target:
'Preparing...' }` whose `config_name` is that of a returned pair with this
id, namely the last such pair, which is the job's own pair when the ids are
pairwise distinct; the lookup of any id that was not returned is as before
(no entry is created for it); and one open channel per member is appended. -/
theorem C6_launchAll_entries (σ : Sys) (ok : Bool) (launched : List Entry) (N : Nat)
    (hN : launched.length ≤ N) :
    keys (launchAll σ (Response.json ok (Body.array launched))).1.activeJobs
      = keys σ.activeJobs ∪ (launched.map jobIdOf).toFinset ∧
    (keys (launchAll σ (Response.json ok (Body.array launched))).1.activeJobs
      \ keys σ.activeJobs).card ≤ launched.length ∧
    (keys (launchAll σ (Response.json ok (Body.array launched))).1.activeJobs
      \ keys σ.activeJobs).card ≤ N ∧
    (∀ job ∈ launched, ∃ job' ∈ launched, jobIdOf job' = jobIdOf job ∧
      getProp (launchAll σ (Response.json ok (Body.array launched))).1.activeJobs (jobIdOf job)
        = some [("state", JsVal.str "starting"), ("config_name", field job' "config_name"),
                ("progress", JsVal.str "0/0"), ("current_target", JsVal.str "Preparing...")]) ∧
    (∀ (pre suf : List Entry) (job : Entry), launched = pre ++ job :: suf →
      jobIdOf job ∉ suf.map jobIdOf →
      getProp (launchAll σ (Response.json ok (Body.array launched))).1.activeJobs (jobIdOf job)
        = some [("state", JsVal.str "starting"), ("config_name", field job "config_name"),
                ("progress", JsVal.str "0/0"), ("current_target", JsVal.str "Preparing...")]) ∧
    ((launched.map jobIdOf).Nodup → ∀ job ∈ launched,
      getProp (launchAll σ (Response.json ok (Body.array launched))).1.activeJobs (jobIdOf job)
        = some [("state", JsVal.str "starting"), ("config_name", field job "config_name"),
                ("progress", JsVal.str "0/0"), ("current_target", JsVal.str "Preparing...")]) ∧
    (∀ k : String, k ∉ launched.map jobIdOf →
      getProp (launchAll σ (Response.json ok (Body.array launched))).1.activeJobs k
        = getProp σ.activeJobs k) ∧
    (launchAll σ (Response.json ok (Body.array launched))).1.channels
      = σ.channels ++ launched.map
        (fun job => { jobId := jobIdOf job, configName := field job "config_name",
                      closed := false }) := by
  have hkeys : keys (launchAll σ (Response.json ok (Body.array launched))).1.activeJobs
      = keys σ.activeJobs ∪ (launched.map jobIdOf).toFinset :=
    keys_foldl_launchAllItem launched σ
  have hcard : (keys (launchAll σ (Response.json ok (Body.array launched))).1.activeJobs
      \ keys σ.activeJobs).card ≤ launched.length := by
    have hsub : keys (launchAll σ (Response.json ok (Body.array launched))).1.activeJobs
        \ keys σ.activeJobs ⊆ (launched.map jobIdOf).toFinset := by
      rw [hkeys]
      intro k hk
      simp only [Finset.mem_sdiff, Finset.mem_union] at hk
      tauto
    calc _ ≤ (launched.map jobIdOf).toFinset.card := Finset.card_le_card hsub
      _ ≤ (launched.map jobIdOf).length := List.toFinset_card_le _
      _ = launched.length := List.length_map _ _
  have hlast : ∀ (pre suf : List Entry) (job : Entry), launched = pre ++ job :: suf →
      jobIdOf job ∉ suf.map jobIdOf →
      getProp (launchAll σ (Response.json ok (Body.array launched))).1.activeJobs (jobIdOf job)
        = some [("state", JsVal.str "starting"), ("config_name", field job "config_name"),
                ("progress", JsVal.str "0/0"), ("current_target", JsVal.str "Preparing...")] := by
    intro pre suf job hsplit hl
    subst hsplit
    exact getProp_foldl_launchAllItem_last pre suf job σ hl
  refine ⟨hkeys, hcard, le_trans hcard hN, ?_, hlast, ?_, ?_, ?_⟩
  · intro job hjob
    obtain ⟨pre, job', suf, hsplit, hid, hnot⟩ :=
      exists_last_occurrence launched (jobIdOf job) (List.mem_map_of_mem _ hjob)
    refine ⟨job', by rw [hsplit]; simp, hid, ?_⟩
    rw [← hid]
    exact hlast pre suf job' hsplit (by rw [hid]; exact hnot)
  · intro hnd job hjob
    obtain ⟨pre, suf, hsplit⟩ := List.append_of_mem hjob
    apply hlast pre suf job hsplit
    rw [hsplit, List.map_append, List.map_cons] at hnd
    have h2 := (List.nodup_append.1 hnd).2.1
    exact (List.nodup_cons.1 h2).1
  · intro k hk
    exact getProp_foldl_launchAllItem_of_not_mem launched σ k hk
  · exact channels_foldl_launchAllItem launched σ

/-- C6, witness: `launchAll()` over the two configurations `A` and `B`, with
the backend answer `launchedAB`, right after mounting. -/
theorem C6_launchAll_entries_witness :
    getProp exampleLaunchedAB.activeJobs "1"
      = some [("state", JsVal.str "starting"), ("config_name", JsVal.str "A"),
              ("progress", JsVal.str "0/0"), ("current_target", JsVal.str "Preparing...")] ∧
    getProp exampleLaunchedAB.activeJobs "2"
      = some [("state", JsVal.str "starting"), ("config_name", JsVal.str "B"),
              ("progress", JsVal.str "0/0"), ("current_target", JsVal.str "Preparing...")] ∧
    getProp exampleLaunchedAB.activeJobs "3" = none ∧
    (keys exampleLaunchedAB.activeJobs \ keys Sys.start.activeJobs).card ≤ 2 :=
  ⟨(C6_launchAll_entries Sys.start true
      [[("job_id", JsVal.str "1"), ("config_name", JsVal.str "A")],
       [("job_id", JsVal.str "2"), ("config_name", JsVal.str "B")]] 2 (by decide)).2.2.2.2.2.1
      (by decide) [("job_id", JsVal.str "1"), ("config_name", JsVal.str "A")] (by decide),
   (C6_launchAll_entries Sys.start true
      [[("job_id", JsVal.str "1"), ("config_name", JsVal.str "A")],
       [("job_id", JsVal.str "2"), ("config_name", JsVal.str "B")]] 2 (by decide)).2.2.2.2.2.1
      (by decide) [("job_id", JsVal.str "2"), ("config_name", JsVal.str "B")] (by decide),
   (C6_launchAll_entries Sys.start true
      [[("job_id", JsVal.str "1"), ("config_name", JsVal.str "A")],
       [("job_id", JsVal.str "2"), ("config_name", JsVal.str "B")]] 2 (by decide)).2.2.2.2.2.2.1
      "3" (by decide),
   (C6_launchAll_entries Sys.start true
      [[("job_id", JsVal.str "1"), ("config_name", JsVal.str "A")],
       [("job_id", JsVal.str "2"), ("config_name", JsVal.str "B")]] 2 (by decide)).2.2.1⟩

/-! ## Effect of one callback on timers and channels -/

theorem timers_foldl_launchAllItem (launched : List Entry) (σ : Sys) :
    (launched.foldl launchAllItem σ).timers = σ.timers := by
  induction launched generalizing σ with
  | nil => rfl
  | cons job rest ih => simp only [List.foldl_cons, ih]; rfl

theorem snd_foldl_fetchActiveItem (data : List Entry) (a : Registry) (σ : Sys) :
    (data.foldl fetchActiveItem (a, σ)).2 =
      { σ with channels := (σ.channels ++ data.map
          (fun job => { jobId := jobIdOf job, configName := field job "config_name",
                        closed := false })) } := by
  induction data generalizing a σ with
  | nil => simp
  | cons job rest ih =>
    simp only [List.foldl_cons, fetchActiveItem, ih, startProgressStream]
    simp

theorem getProp_fst_foldl_fetchActiveItem (data : List Entry) (a : Registry) (σ : Sys)
    (k : String) (hk : k ∉ data.map jobIdOf) :
    getProp (data.foldl fetchActiveItem (a, σ)).1 k = getProp a k := by
  induction data generalizing a σ with
  | nil => rfl
  | cons job rest ih =>
    simp only [List.map_cons, List.mem_cons, not_or] at hk
    simp only [List.foldl_cons, fetchActiveItem]
    rw [ih _ _ hk.2]
    exact getProp_setProp_ne _ _ k _ hk.1

theorem timers_launchScan (σ : Sys) (id configName : JsVal) (resp : Response) :
    (launchScan σ id configName resp).1.timers = σ.timers := by
  cases resp <;> rfl

theorem timers_launchAll (σ : Sys) (resp : Response) : (launchAll σ resp).1.timers = σ.timers := by
  cases resp with
  | networkError => rfl
  | notJson => rfl
  | json ok body =>
    cases body with
    | object o => rfl
    | array launched => exact timers_foldl_launchAllItem launched σ

theorem timers_fetchActiveJobs (σ : Sys) (resp : Response) :
    (fetchActiveJobs σ resp).1.timers = σ.timers := by
  cases resp with
  | networkError => rfl
  | notJson => rfl
  | json ok body =>
    cases body with
    | object o => rfl
    | array data => simp only [fetchActiveJobs, snd_foldl_fetchActiveItem]

theorem timers_deliverError (σ : Sys) (c : Nat) : (deliverError σ c).timers = σ.timers := by
  simp only [deliverError]
  split
  · split <;> rfl
  · rfl

/-- Every timer pending after a callback was pending before it, or was set by
this callback: a terminal update handled by an open channel. -/
theorem timers_step (σ : Sys) (e : Event) (tm : Timer) (h : tm ∈ (step σ e).timers) :
    tm ∈ σ.timers ∨
    ∃ (c : Nat) (ch : Channel) (data : Entry),
      e = Event.message c (Payload.object data) ∧ σ.channels[c]? = some ch ∧
      ch.closed = false ∧ isTerminalState (field data "state") = true ∧
      tm = { jobId := ch.jobId, due := σ.now + removalDelay } := by
  cases e with
  | advance dt => exact Or.inl h
  | activeJobsFetched resp => exact Or.inl (by simpa [step, timers_fetchActiveJobs] using h)
  | launchScanSettled id configName resp =>
    exact Or.inl (by simpa [step, timers_launchScan] using h)
  | launchAllSettled resp => exact Or.inl (by simpa [step, timers_launchAll] using h)
  | transportError c => exact Or.inl (by simpa [step, timers_deliverError] using h)
  | timerFires i =>
    left
    simp only [step, fireTimer] at h
    split at h
    · split at h
      · exact List.mem_of_mem_eraseIdx h
      · exact h
    · exact h
  | message c payload =>
    simp only [step] at h
    cases hch : σ.channels[c]? with
    | none => exact Or.inl (by simpa [deliverMessage, hch] using h)
    | some ch =>
      cases hc : ch.closed with
      | true => exact Or.inl (by rwa [deliverMessage_closed σ c ch _ hch hc] at h)
      | false =>
        rw [deliverMessage_open σ c ch _ hch hc] at h
        cases payload with
        | malformed => exact Or.inl h
        | object data =>
          cases ht : isTerminalState (field data "state") with
          | false => exact Or.inl (by simpa [onmessage, ht] using h)
          | true =>
            simp only [onmessage, ht, if_true, List.mem_append, List.mem_singleton] at h
            rcases h with h | h
            · exact Or.inl h
            · exact Or.inr ⟨c, ch, data, rfl, hch, hc, ht, h⟩

/-! ## Where removals come from -/

theorem run_concat (σ : Sys) (tr : List Event) (e : Event) :
    run σ (tr ++ [e]) = step (run σ tr) e := by
  simp [run, List.foldl_append]

theorem TerminalUpdateAt.concat {tr : List Event} {j : String} {t : Nat} (e : Event)
    (h : TerminalUpdateAt tr j t) : TerminalUpdateAt (tr ++ [e]) j t := by
  obtain ⟨pre, suf, c, ch, data, htr, hch, hopen, hj, hterm, hnow⟩ := h
  exact ⟨pre, suf ++ [e], c, ch, data, by simp [htr], hch, hopen, hj, hterm, hnow⟩

/-- Every pending timer was set by a terminal update of its job, and is due
`removalDelay` after the time of that update. -/
theorem timers_justified (tr : List Event) :
    ∀ tm ∈ (run Sys.start tr).timers,
      ∃ t, TerminalUpdateAt tr tm.jobId t ∧ tm.due = t + removalDelay := by
  induction tr using List.reverseRecOn with
  | nil => intro tm h; simp [run, Sys.start] at h
  | append_singleton tr e ih =>
    intro tm h
    rw [run_concat] at h
    rcases timers_step _ e tm h with hold | ⟨c, ch, data, he, hch, hopen, hterm, htm⟩
    · obtain ⟨t, ht, hdue⟩ := ih tm hold
      exact ⟨t, ht.concat e, hdue⟩
    · refine ⟨(run Sys.start tr).now, ⟨tr, [], c, ch, data, by rw [he], hch, hopen, ?_, hterm, rfl⟩, ?_⟩
      · rw [htm]
      · rw [htm]

theorem getProp_setProp_ne_none {α : Type} (o : JsObject α) (k j : String) (v : α)
    (h : getProp o j ≠ none) : getProp (setProp o k v) j ≠ none := by
  by_cases hk : j = k
  · subst hk
    simp [getProp_setProp_same]
  · rwa [getProp_setProp_ne o k j v hk]

theorem getProp_foldl_launchAllItem_ne_none (launched : List Entry) (σ : Sys) (j : String)
    (h : getProp σ.activeJobs j ≠ none) :
    getProp (launched.foldl launchAllItem σ).activeJobs j ≠ none := by
  induction launched generalizing σ with
  | nil => exact h
  | cons job rest ih =>
    simp only [List.foldl_cons]
    apply ih
    rw [activeJobs_launchAllItem]
    exact getProp_setProp_ne_none _ _ _ _ h

/-- A callback after which an entry is gone is the settling of the initial
`/jobs/active` request or the removal timer of that job, run when due. -/
theorem removal_step (σ : Sys) (e : Event) (j : String)
    (hb : getProp σ.activeJobs j ≠ none) (ha : getProp (step σ e).activeJobs j = none) :
    (∃ resp, e = Event.activeJobsFetched resp) ∨
    ∃ (i : Nat) (tm : Timer),
      e = Event.timerFires i ∧ σ.timers[i]? = some tm ∧ tm.jobId = j ∧ tm.due ≤ σ.now := by
  cases e with
  | advance dt => exact absurd ha hb
  | activeJobsFetched resp => exact Or.inl ⟨resp, rfl⟩
  | launchScanSettled id configName resp =>
    exfalso
    cases resp with
    | networkError => exact hb ha
    | notJson => exact hb ha
    | json ok body =>
      exact getProp_setProp_ne_none σ.activeJobs body.jobKey j (placeholder configName) hb ha
  | launchAllSettled resp =>
    exfalso
    cases resp with
    | networkError => exact hb ha
    | notJson => exact hb ha
    | json ok body =>
      cases body with
      | object o => exact hb ha
      | array launched => exact getProp_foldl_launchAllItem_ne_none launched σ j hb ha
  | transportError c =>
    exfalso
    simp only [step, deliverError] at ha
    split at ha
    · split at ha
      · exact hb ha
      · exact hb ha
    · exact hb ha
  | message c payload =>
    exfalso
    simp only [step] at ha
    cases hch : σ.channels[c]? with
    | none => exact hb (by simpa [deliverMessage, hch] using ha)
    | some ch =>
      cases hc : ch.closed with
      | true => exact hb (by rwa [deliverMessage_closed σ c ch _ hch hc] at ha)
      | false =>
        rw [deliverMessage_open σ c ch _ hch hc] at ha
        cases payload with
        | malformed => exact hb ha
        | object data =>
          rw [activeJobs_onmessage_object, upsertProgress] at ha
          exact getProp_setProp_ne_none _ _ _ _ hb ha
  | timerFires i =>
    right
    simp only [step] at ha
    cases hti : σ.timers[i]? with
    | none => exact absurd (by simpa [fireTimer, hti] using ha) hb
    | some tm =>
      rw [activeJobs_fireTimer σ i tm hti] at ha
      by_cases hdue : tm.due ≤ σ.now
      · simp only [hdue, if_true] at ha
        by_cases hj : tm.jobId = j
        · exact ⟨i, tm, rfl, hti, hj, hdue⟩
        · rw [getProp_deleteProp_ne _ _ _ (fun e => hj e.symm)] at ha
          exact absurd ha hb
      · simp only [hdue, if_false] at ha
        exact absurd ha hb

/-! ## One stream per job: invariants of executions with distinct ids -/

theorem mem_closeAt (chs : List Channel) (c : Nat) (ch' : Channel) (h : ch' ∈ closeAt chs c) :
    ∃ ch ∈ chs, ch'.jobId = ch.jobId ∧ (ch.closed = true → ch'.closed = true) := by
  induction chs generalizing c with
  | nil => simp [closeAt] at h
  | cons x rest ih =>
    cases c with
    | zero =>
      simp only [closeAt, List.mem_cons] at h
      rcases h with h | h
      · exact ⟨x, by simp, by rw [h], fun _ => by rw [h]⟩
      · exact ⟨ch', by simp [h], rfl, id⟩
    | succ n =>
      simp only [closeAt, List.mem_cons] at h
      rcases h with h | h
      · exact ⟨x, by simp, by rw [h], fun hx => by rw [h]; exact hx⟩
      · obtain ⟨ch, hm, h1, h2⟩ := ih n h
        exact ⟨ch, by simp [hm], h1, h2⟩

theorem closed_of_mem_closeAt (chs : List Channel) (c : Nat) (ch : Channel)
    (hnd : (chs.map Channel.jobId).Nodup) (hch : chs[c]? = some ch)
    (ch' : Channel) (h : ch' ∈ closeAt chs c) (hj : ch'.jobId = ch.jobId) :
    ch'.closed = true := by
  induction chs generalizing c with
  | nil => simp at hch
  | cons x rest ih =>
    simp only [List.map_cons, List.nodup_cons] at hnd
    cases c with
    | zero =>
      simp at hch
      subst hch
      simp only [closeAt, List.mem_cons] at h
      rcases h with h | h
      · rw [h]
      · exfalso
        apply hnd.1
        rw [← hj]
        exact List.mem_map_of_mem _ h
    | succ n =>
      simp at hch
      simp only [closeAt, List.mem_cons] at h
      rcases h with h | h
      · exfalso
        apply hnd.1
        rw [← h, hj]
        exact List.mem_map_of_mem _ (List.getElem?_mem hch)
      · exact ih n hnd.2 hch h

theorem not_mem_map_eraseIdx {α β : Type} (f : α → β) (l : List α) (i : Nat) (t : α)
    (hnd : (l.map f).Nodup) (ht : l[i]? = some t) : f t ∉ (l.eraseIdx i).map f := by
  induction l generalizing i with
  | nil => simp at ht
  | cons x rest ih =>
    simp only [List.map_cons, List.nodup_cons] at hnd
    cases i with
    | zero =>
      simp at ht
      subst ht
      simpa using hnd.1
    | succ n =>
      simp at ht
      simp only [List.eraseIdx_cons_succ, List.map_cons, List.mem_cons, not_or]
      refine ⟨?_, ih n hnd.2 ht⟩
      intro heq
      apply hnd.1
      rw [← heq]
      exact List.mem_map_of_mem _ (List.getElem?_mem ht)

theorem channels_fetchActiveJobs (σ : Sys) (ok : Bool) (data : List Entry) :
    (fetchActiveJobs σ (Response.json ok (Body.array data))).1.channels =
      σ.channels ++ data.map
        (fun job => { jobId := jobIdOf job, configName := field job "config_name",
                      closed := false }) := by
  simp only [fetchActiveJobs, snd_foldl_fetchActiveItem]

theorem map_jobId_started (data : List Entry) :
    (data.map (fun job => Channel.mk (jobIdOf job) (field job "config_name") false)).map
      Channel.jobId = data.map jobIdOf := by
  simp [List.map_map, Function.comp_def]

theorem channels_deliverMessage (σ : Sys) (c : Nat) (payload : Payload) :
    (deliverMessage σ c payload).channels.map Channel.jobId = σ.channels.map Channel.jobId := by
  simp only [deliverMessage]
  split
  · split
    · rfl
    · cases payload with
      | malformed => rfl
      | object data =>
        simp only [onmessage]
        split
        · exact map_jobId_closeAt _ _
        · rfl
  · rfl

theorem channels_deliverError (σ : Sys) (c : Nat) :
    (deliverError σ c).channels.map Channel.jobId = σ.channels.map Channel.jobId := by
  simp only [deliverError]
  split
  · split
    · rfl
    · exact map_jobId_closeAt _ _
  · rfl

theorem channels_fireTimer (σ : Sys) (i : Nat) : (fireTimer σ i).channels = σ.channels := by
  simp only [fireTimer]
  split
  · split <;> rfl
  · rfl

/-- The job ids of the channels after a callback are those before it followed
by the ids the callback hands to `startProgressStream`. -/
theorem channelIds_step (σ : Sys) (e : Event) :
    (step σ e).channels.map Channel.jobId = σ.channels.map Channel.jobId ++ startedIds e := by
  cases e with
  | advance dt => simp [step, startedIds]
  | activeJobsFetched resp =>
    cases resp with
    | networkError => simp [step, startedIds, fetchActiveJobs, logError]
    | notJson => simp [step, startedIds, fetchActiveJobs, logError]
    | json ok body =>
      cases body with
      | object o => simp [step, startedIds, fetchActiveJobs, logError]
      | array data =>
        simp only [step, startedIds, channels_fetchActiveJobs, List.map_append, map_jobId_started]
  | launchScanSettled id configName resp =>
    cases resp with
    | networkError => simp [step, startedIds, launchScan, logError]
    | notJson => simp [step, startedIds, launchScan, logError]
    | json ok body => simp [step, startedIds, launchScan, startProgressStream]
  | launchAllSettled resp =>
    cases resp with
    | networkError => simp [step, startedIds, launchAll, logError]
    | notJson => simp [step, startedIds, launchAll, logError]
    | json ok body =>
      cases body with
      | object o => simp [step, startedIds, launchAll, logError]
      | array launched =>
        simp only [step, startedIds, launchAll, channels_foldl_launchAllItem, List.map_append,
          map_jobId_started]
  | message c payload => simp [step, startedIds, channels_deliverMessage]
  | transportError c => simp [step, startedIds, channels_deliverError]
  | timerFires i => simp [step, startedIds, channels_fireTimer]

/-! ## Preservation of `OneStreamPerJob` -/

theorem OneStreamPerJob.start : OneStreamPerJob Sys.start := by
  constructor <;> simp [Sys.start]

theorem OneStreamPerJob.of_eq {σ σ' : Sys} (h : OneStreamPerJob σ)
    (ha : σ'.activeJobs = σ.activeJobs) (hc : σ'.channels = σ.channels)
    (ht : σ'.timers = σ.timers) : OneStreamPerJob σ' := by
  constructor
  · rw [hc]; exact h.channelIds
  · rw [ht]; exact h.timerIds
  · rw [ht, hc]; exact h.timerClosed
  · rw [ht, hc]; exact h.timerHasChannel
  · rw [ht, ha]; exact h.timerTerminal

theorem OneStreamPerJob.startStreams {σ σ' : Sys} (news : List Channel) (h : OneStreamPerJob σ)
    (hc : σ'.channels = σ.channels ++ news) (ht : σ'.timers = σ.timers)
    (hnd : (σ.channels.map Channel.jobId ++ news.map Channel.jobId).Nodup)
    (hA : ∀ k ∈ σ.channels.map Channel.jobId, ∀ entry : Entry,
      getProp σ'.activeJobs k = some entry → getProp σ.activeJobs k = some entry) :
    OneStreamPerJob σ' := by
  constructor
  · rw [hc, List.map_append]; exact hnd
  · rw [ht]; exact h.timerIds
  · intro tm htm ch hch hj
    rw [ht] at htm
    rw [hc, List.mem_append] at hch
    rcases hch with hold | hnew
    · exact h.timerClosed tm htm ch hold hj
    · exfalso
      exact List.disjoint_of_nodup_append hnd (h.timerHasChannel tm htm)
        (by rw [← hj]; exact List.mem_map_of_mem _ hnew)
  · intro tm htm
    rw [ht] at htm
    rw [hc, List.map_append, List.mem_append]
    exact Or.inl (h.timerHasChannel tm htm)
  · intro tm htm entry he
    rw [ht] at htm
    exact h.timerTerminal tm htm entry (hA _ (h.timerHasChannel tm htm) entry he)

theorem OneStreamPerJob.close {σ σ' : Sys} (c : Nat) (h : OneStreamPerJob σ)
    (ha : σ'.activeJobs = σ.activeJobs) (hc : σ'.channels = closeAt σ.channels c)
    (ht : σ'.timers = σ.timers) : OneStreamPerJob σ' := by
  constructor
  · rw [hc, map_jobId_closeAt]; exact h.channelIds
  · rw [ht]; exact h.timerIds
  · intro tm htm ch' hch' hj
    rw [ht] at htm
    rw [hc] at hch'
    obtain ⟨ch, hm, h1, h2⟩ := mem_closeAt _ _ _ hch'
    exact h2 (h.timerClosed tm htm ch hm (by rw [← h1]; exact hj))
  · intro tm htm
    rw [ht] at htm
    rw [hc, map_jobId_closeAt]
    exact h.timerHasChannel tm htm
  · rw [ht, ha]; exact h.timerTerminal

theorem OneStreamPerJob.no_timer_of_open {σ : Sys} (h : OneStreamPerJob σ) (c : Nat)
    (ch : Channel) (hch : σ.channels[c]? = some ch) (hopen : ch.closed = false) :
    ∀ tm ∈ σ.timers, tm.jobId ≠ ch.jobId := by
  intro tm htm heq
  have := h.timerClosed tm htm ch (List.getElem?_mem hch) heq.symm
  rw [hopen] at this
  exact Bool.noConfusion this

theorem OneStreamPerJob.update {σ σ' : Sys} (c : Nat) (ch : Channel) (data : Entry)
    (h : OneStreamPerJob σ) (hch : σ.channels[c]? = some ch) (hopen : ch.closed = false)
    (ha : σ'.activeJobs = upsertProgress σ.activeJobs ch.jobId data ch.configName)
    (hc : σ'.channels = σ.channels) (ht : σ'.timers = σ.timers) : OneStreamPerJob σ' := by
  constructor
  · rw [hc]; exact h.channelIds
  · rw [ht]; exact h.timerIds
  · rw [ht, hc]; exact h.timerClosed
  · rw [ht, hc]; exact h.timerHasChannel
  · intro tm htm entry he
    rw [ht] at htm
    rw [ha, upsertProgress,
      getProp_setProp_ne _ _ _ _ (h.no_timer_of_open c ch hch hopen tm htm)] at he
    exact h.timerTerminal tm htm entry he

theorem OneStreamPerJob.terminal {σ σ' : Sys} (c : Nat) (ch : Channel) (data : Entry) (due : Nat)
    (h : OneStreamPerJob σ) (hch : σ.channels[c]? = some ch) (hopen : ch.closed = false)
    (hterm : isTerminalState (field data "state") = true)
    (ha : σ'.activeJobs = upsertProgress σ.activeJobs ch.jobId data ch.configName)
    (hc : σ'.channels = closeAt σ.channels c)
    (ht : σ'.timers = σ.timers ++ [{ jobId := ch.jobId, due := due }]) :
    OneStreamPerJob σ' := by
  have hno := h.no_timer_of_open c ch hch hopen
  constructor
  · rw [hc, map_jobId_closeAt]; exact h.channelIds
  · rw [ht, List.map_append, List.nodup_append]
    refine ⟨h.timerIds, by simp, ?_⟩
    intro j hj1 hj2
    simp only [List.map_cons, List.map_nil, List.mem_singleton] at hj2
    obtain ⟨tm, htm, hjt⟩ := List.mem_map.1 hj1
    exact hno tm htm (by rw [hjt, hj2])
  · intro tm htm ch' hch' hj
    rw [hc] at hch'
    rw [ht, List.mem_append, List.mem_singleton] at htm
    rcases htm with hold | hnew
    · obtain ⟨ch0, hm, h1, h2⟩ := mem_closeAt _ _ _ hch'
      exact h2 (h.timerClosed tm hold ch0 hm (by rw [← h1]; exact hj))
    · exact closed_of_mem_closeAt σ.channels c ch h.channelIds hch ch' hch' (by rw [hj, hnew])
  · intro tm htm
    rw [ht, List.mem_append, List.mem_singleton] at htm
    rw [hc, map_jobId_closeAt]
    rcases htm with hold | hnew
    · exact h.timerHasChannel tm hold
    · rw [hnew]
      exact List.mem_map_of_mem _ (List.getElem?_mem hch)
  · intro tm htm entry he
    rw [ht, List.mem_append, List.mem_singleton] at htm
    rw [ha, upsertProgress] at he
    rcases htm with hold | hnew
    · rw [getProp_setProp_ne _ _ _ _ (hno tm hold)] at he
      exact h.timerTerminal tm hold entry he
    · rw [hnew, getProp_setProp_same] at he
      have he' : setProp data "config_name" ch.configName = entry := Option.some.inj he
      rw [← he', field_setProp_ne data "config_name" "state" ch.configName (by decide)]
      exact hterm

theorem OneStreamPerJob.fire {σ σ' : Sys} (i : Nat) (t : Timer) (h : OneStreamPerJob σ)
    (ha : σ'.activeJobs = deleteProp σ.activeJobs t.jobId) (hc : σ'.channels = σ.channels)
    (ht : σ'.timers = σ.timers.eraseIdx i) : OneStreamPerJob σ' := by
  constructor
  · rw [hc]; exact h.channelIds
  · rw [ht]
    exact List.Nodup.sublist ((List.eraseIdx_sublist _ _).map _) h.timerIds
  · intro tm htm ch hch hj
    rw [ht] at htm
    rw [hc] at hch
    exact h.timerClosed tm (List.mem_of_mem_eraseIdx htm) ch hch hj
  · intro tm htm
    rw [ht] at htm
    rw [hc]
    exact h.timerHasChannel tm (List.mem_of_mem_eraseIdx htm)
  · intro tm htm entry he
    rw [ht] at htm
    rw [ha] at he
    by_cases hj : tm.jobId = t.jobId
    · rw [hj, getProp_deleteProp_same] at he
      exact Option.noConfusion he
    · rw [getProp_deleteProp_ne _ _ _ hj] at he
      exact h.timerTerminal tm (List.mem_of_mem_eraseIdx htm) entry he

/-! ## Executions with distinct job ids -/

theorem step_message_none (σ : Sys) (c : Nat) (payload : Payload) (h : σ.channels[c]? = none) :
    step σ (Event.message c payload) = σ := by
  simp [step, deliverMessage, h]

theorem oneStream_step (σ : Sys) (e : Event) (h : OneStreamPerJob σ)
    (hfresh : (σ.channels.map Channel.jobId ++ startedIds e).Nodup) :
    OneStreamPerJob (step σ e) := by
  cases e with
  | advance dt => exact h.of_eq rfl rfl rfl
  | activeJobsFetched resp =>
    cases resp with
    | networkError => exact h.of_eq rfl rfl rfl
    | notJson => exact h.of_eq rfl rfl rfl
    | json ok body =>
      cases body with
      | object o => exact h.of_eq rfl rfl rfl
      | array data =>
        simp only [startedIds] at hfresh
        refine h.startStreams _ (channels_fetchActiveJobs σ ok data)
          (timers_fetchActiveJobs σ _) (by rw [map_jobId_started]; exact hfresh) ?_
        intro k hk entry he
        exfalso
        have hnot : k ∉ data.map jobIdOf :=
          fun hin => List.disjoint_of_nodup_append hfresh hk hin
        have hget : getProp (data.foldl fetchActiveItem ([], σ)).1 k = some entry := he
        rw [getProp_fst_foldl_fetchActiveItem data [] σ k hnot] at hget
        exact Option.noConfusion hget
  | launchScanSettled id configName resp =>
    cases resp with
    | networkError => exact h.of_eq rfl rfl rfl
    | notJson => exact h.of_eq rfl rfl rfl
    | json ok body =>
      simp only [startedIds] at hfresh
      refine h.startStreams [{ jobId := body.jobKey, configName := configName, closed := false }]
        rfl rfl hfresh ?_
      intro k hk entry he
      have hne : k ≠ body.jobKey :=
        fun heq => List.disjoint_of_nodup_append hfresh hk (by simp [heq])
      have hget : getProp (setProp σ.activeJobs body.jobKey (placeholder configName)) k
          = some entry := he
      rwa [getProp_setProp_ne _ _ _ _ hne] at hget
  | launchAllSettled resp =>
    cases resp with
    | networkError => exact h.of_eq rfl rfl rfl
    | notJson => exact h.of_eq rfl rfl rfl
    | json ok body =>
      cases body with
      | object o => exact h.of_eq rfl rfl rfl
      | array launched =>
        simp only [startedIds] at hfresh
        refine h.startStreams _ (channels_foldl_launchAllItem launched σ)
          (timers_foldl_launchAllItem launched σ) (by rw [map_jobId_started]; exact hfresh) ?_
        intro k hk entry he
        have hnot : k ∉ launched.map jobIdOf :=
          fun hin => List.disjoint_of_nodup_append hfresh hk hin
        have hget : getProp (launched.foldl launchAllItem σ).activeJobs k = some entry := he
        rwa [getProp_foldl_launchAllItem_of_not_mem launched σ k hnot] at hget
  | message c payload =>
    cases hch : σ.channels[c]? with
    | none => rw [step_message_none σ c payload hch]; exact h
    | some ch =>
      cases hc : ch.closed with
      | true =>
        simp only [step]
        rw [deliverMessage_closed σ c ch _ hch hc]; exact h
      | false =>
        simp only [step]
        rw [deliverMessage_open σ c ch _ hch hc]
        cases payload with
        | malformed => exact h
        | object data =>
          cases ht : isTerminalState (field data "state") with
          | true =>
            exact h.terminal c ch data (σ.now + removalDelay) hch hc ht
              (activeJobs_onmessage_object σ c ch data) (by simp [onmessage, ht])
              (by simp [onmessage, ht])
          | false =>
            exact h.update c ch data hch hc (activeJobs_onmessage_object σ c ch data)
              (by simp [onmessage, ht]) (by simp [onmessage, ht])
  | transportError c =>
    simp only [step, deliverError]
    split
    · split
      · exact h
      · exact h.close c rfl rfl rfl
    · exact h
  | timerFires i =>
    simp only [step, fireTimer]
    split
    · split
      · exact h.fire i _ rfl rfl rfl
      · exact h
    · exact h

theorem fresh_cons (chs : List String) (e : Event) (rest : List Event)
    (h : (chs ++ startedIdsOf (e :: rest)).Nodup) :
    (chs ++ startedIds e).Nodup ∧ ((chs ++ startedIds e) ++ startedIdsOf rest).Nodup := by
  simp only [startedIdsOf] at h
  rw [← List.append_assoc] at h
  exact ⟨(List.nodup_append.1 h).1, h⟩

theorem oneStream_run (tr : List Event) (σ : Sys) (h : OneStreamPerJob σ)
    (hfresh : (σ.channels.map Channel.jobId ++ startedIdsOf tr).Nodup) :
    OneStreamPerJob (run σ tr) := by
  induction tr generalizing σ with
  | nil => exact h
  | cons e rest ih =>
    obtain ⟨h1, h2⟩ := fresh_cons _ e rest hfresh
    exact ih (step σ e) (oneStream_step σ e h h1) (by rw [channelIds_step]; exact h2)

/-- Every channel after a callback is a channel from before it, possibly
closed by it, or was opened by it. -/
theorem channels_step_mem (σ : Sys) (e : Event) (ch' : Channel) (h : ch' ∈ (step σ e).channels) :
    (∃ ch ∈ σ.channels, ch'.jobId = ch.jobId ∧ (ch.closed = true → ch'.closed = true)) ∨
    ch'.jobId ∈ startedIds e := by
  have keep : ch' ∈ σ.channels →
      (∃ ch ∈ σ.channels, ch'.jobId = ch.jobId ∧ (ch.closed = true → ch'.closed = true)) ∨
      ch'.jobId ∈ startedIds e := fun hm => Or.inl ⟨ch', hm, rfl, id⟩
  cases e with
  | advance dt => exact keep h
  | activeJobsFetched resp =>
    cases resp with
    | networkError => exact keep h
    | notJson => exact keep h
    | json ok body =>
      cases body with
      | object o => exact keep h
      | array data =>
        simp only [step, channels_fetchActiveJobs, List.mem_append] at h
        rcases h with h | h
        · exact keep h
        · right
          simp only [startedIds]
          rw [← map_jobId_started]
          exact List.mem_map_of_mem _ h
  | launchScanSettled id configName resp =>
    cases resp with
    | networkError => exact keep h
    | notJson => exact keep h
    | json ok body =>
      simp only [step, launchScan, startProgressStream, List.mem_append, List.mem_singleton] at h
      rcases h with h | h
      · exact keep h
      · right
        simp [startedIds, h]
  | launchAllSettled resp =>
    cases resp with
    | networkError => exact keep h
    | notJson => exact keep h
    | json ok body =>
      cases body with
      | object o => exact keep h
      | array launched =>
        simp only [step, launchAll, channels_foldl_launchAllItem, List.mem_append] at h
        rcases h with h | h
        · exact keep h
        · right
          simp only [startedIds]
          rw [← map_jobId_started]
          exact List.mem_map_of_mem _ h
  | message c payload =>
    left
    simp only [step, deliverMessage] at h
    split at h
    · split at h
      · exact ⟨ch', h, rfl, id⟩
      · cases payload with
        | malformed => exact ⟨ch', h, rfl, id⟩
        | object data =>
          simp only [onmessage] at h
          split at h
          · exact mem_closeAt _ _ _ h
          · exact ⟨ch', h, rfl, id⟩
    · exact ⟨ch', h, rfl, id⟩
  | transportError c =>
    left
    simp only [step, deliverError] at h
    split at h
    · split at h
      · exact ⟨ch', h, rfl, id⟩
      · exact mem_closeAt _ _ _ h
    · exact ⟨ch', h, rfl, id⟩
  | timerFires i =>
    rw [show (step σ (Event.timerFires i)).channels = σ.channels from channels_fireTimer σ i] at h
    exact keep h

theorem removed_step (σ : Sys) (e : Event) (done : List String)
    (r : RemovedStayRemoved σ done)
    (hfresh : (σ.channels.map Channel.jobId ++ startedIds e).Nodup) :
    RemovedStayRemoved (step σ e) done := by
  constructor
  · exact r.doneIds
  · intro j hj hmem
    obtain ⟨tm, htm, hjt⟩ := List.mem_map.1 hmem
    rcases timers_step σ e tm htm with hold | ⟨c, ch, data, _, hch, hopen, _, hnew⟩
    · exact r.noTimer j hj (by rw [← hjt]; exact List.mem_map_of_mem _ hold)
    · have hcl := r.doneClosed j hj ch (List.getElem?_mem hch) (by rw [← hjt, hnew])
      rw [hopen] at hcl
      exact Bool.noConfusion hcl
  · intro j hj ch' hch' hjc
    rcases channels_step_mem σ e ch' hch' with ⟨ch, hm, h1, h2⟩ | hnew
    · exact h2 (r.doneClosed j hj ch hm (by rw [← h1]; exact hjc))
    · exfalso
      exact List.disjoint_of_nodup_append hfresh (r.doneHasChannel j hj) (by rw [← hjc]; exact hnew)
  · intro j hj
    rw [channelIds_step, List.mem_append]
    exact Or.inl (r.doneHasChannel j hj)

theorem removed_fire (σ : Sys) (i : Nat) (t : Timer) (done : List String)
    (h : OneStreamPerJob σ) (r : RemovedStayRemoved σ done) (hti : σ.timers[i]? = some t) :
    RemovedStayRemoved (removalCallback { σ with timers := σ.timers.eraseIdx i } t.jobId)
      (done ++ [t.jobId]) := by
  have htmem : t ∈ σ.timers := List.getElem?_mem hti
  constructor
  · rw [List.nodup_append]
    refine ⟨r.doneIds, by simp, ?_⟩
    intro j hj1 hj2
    simp only [List.mem_singleton] at hj2
    exact r.noTimer j hj1 (by rw [hj2]; exact List.mem_map_of_mem _ htmem)
  · intro j hj hmem
    have hmem' : j ∈ (σ.timers.eraseIdx i).map Timer.jobId := hmem
    rw [List.mem_append, List.mem_singleton] at hj
    rcases hj with hj | hj
    · exact r.noTimer j hj ((List.eraseIdx_sublist _ _).map _ |>.subset hmem')
    · rw [hj] at hmem'
      exact not_mem_map_eraseIdx Timer.jobId σ.timers i t h.timerIds hti hmem'
  · intro j hj ch hch hjc
    have hch' : ch ∈ σ.channels := hch
    rw [List.mem_append, List.mem_singleton] at hj
    rcases hj with hj | hj
    · exact r.doneClosed j hj ch hch' hjc
    · exact h.timerClosed t htmem ch hch' (by rw [hjc, hj])
  · intro j hj
    show j ∈ σ.channels.map Channel.jobId
    rw [List.mem_append, List.mem_singleton] at hj
    rcases hj with hj | hj
    · exact r.doneHasChannel j hj
    · rw [hj]; exact h.timerHasChannel t htmem

theorem fired_nodup (tr : List Event) (σ : Sys) (done : List String)
    (h : OneStreamPerJob σ) (r : RemovedStayRemoved σ done)
    (hfresh : (σ.channels.map Channel.jobId ++ startedIdsOf tr).Nodup) :
    (done ++ firedJobs σ tr).Nodup := by
  induction tr generalizing σ done with
  | nil => simpa [firedJobs] using r.doneIds
  | cons e rest ih =>
    obtain ⟨h1, h2⟩ := fresh_cons _ e rest hfresh
    have hstep := ih (step σ e) done (oneStream_step σ e h h1) (removed_step σ e done r h1)
      (by rw [channelIds_step]; exact h2)
    cases e with
    | timerFires i =>
      cases hti : σ.timers[i]? with
      | none => simpa [firedJobs, hti, step] using hstep
      | some t =>
        by_cases hdue : t.due ≤ σ.now
        · have hf : fireTimer σ i
              = removalCallback { σ with timers := σ.timers.eraseIdx i } t.jobId := by
            simp [fireTimer, hti, hdue]
          have h' : OneStreamPerJob (fireTimer σ i) := oneStream_step σ (Event.timerFires i) h h1
          have r' := removed_fire σ i t done h r hti
          rw [← hf] at r'
          have := ih (fireTimer σ i) (done ++ [t.jobId]) h' r'
            (by
              have := h2
              rw [← channelIds_step] at this
              exact this)
          simpa [firedJobs, hti, hdue, List.append_assoc] using this
        · simpa [firedJobs, hti, hdue, step] using hstep
    | advance dt => simpa [firedJobs] using hstep
    | activeJobsFetched resp => simpa [firedJobs] using hstep
    | launchScanSettled id configName resp => simpa [firedJobs] using hstep
    | launchAllSettled resp => simpa [firedJobs] using hstep
    | message c payload => simpa [firedJobs] using hstep
    | transportError c => simpa [firedJobs] using hstep

/-! ## Removal and uniqueness (C3, C9) -/

/-- C3, counterexample: job `abc123` shows `starting` and no update was ever
handled for it; the settling of the initial `/jobs/active` request with an
empty list replaces the registry and the entry is gone, at time 0. And when
the backend reuses the id `abc123` while the timer of the first job is
pending, that timer removes the new entry while it shows `starting`. -/
theorem C3_removed_while_starting :
    run Sys.start launchedTrace = exampleLaunched ∧
    shownState exampleLaunched "abc123" = some (JsVal.str "starting") ∧
    (¬ ∃ t, TerminalUpdateAt launchedTrace "abc123" t) ∧
    getProp (step exampleLaunched
      (Event.activeJobsFetched (Response.json true (Body.array [])))).activeJobs "abc123" = none ∧
    (step exampleLaunched
      (Event.activeJobsFetched (Response.json true (Body.array [])))).now = 0 ∧
    shownState (run Sys.start reuseTrace) "abc123" = some (JsVal.str "starting") ∧
    getProp (step (run Sys.start reuseTrace) (Event.timerFires 0)).activeJobs "abc123" = none := by
  refine ⟨by decide, by decide, ?_, by decide, by decide, by decide, by decide⟩
  rintro ⟨t, pre, suf, c, ch, data, htr, -⟩
  cases pre with
  | nil => simp [launchedTrace] at htr
  | cons x rest => simp [launchedTrace] at htr

/-- C3, amended: a callback after which the entry of job `j` is gone is either
the settling of the initial `/jobs/active` request (which replaces the whole
registry), or the removal timer of `j`; in the latter case an update with
state `completed` or `aborted` was handled for `j` at some time `t` with
`t + 3000` not after the removal, and, when no job id was handed to
`startProgressStream` twice, the removed entry shows a terminal state. -/
theorem C3_removal_after_grace (tr : List Event) (e : Event) (j : String) (entry : Entry)
    (hbefore : getProp (run Sys.start tr).activeJobs j = some entry)
    (hafter : getProp (step (run Sys.start tr) e).activeJobs j = none) :
    (∃ resp, e = Event.activeJobsFetched resp) ∨
    ∃ (i : Nat) (tm : Timer) (t : Nat),
      e = Event.timerFires i ∧ (run Sys.start tr).timers[i]? = some tm ∧ tm.jobId = j ∧
      TerminalUpdateAt tr j t ∧ t + removalDelay ≤ (run Sys.start tr).now ∧
      ((startedIdsOf tr).Nodup → isTerminalState (field entry "state") = true) := by
  have hne : getProp (run Sys.start tr).activeJobs j ≠ none := by
    rw [hbefore]; exact Option.some_ne_none entry
  rcases removal_step _ e j hne hafter with hfetch | ⟨i, tm, he, hti, hj, hdue⟩
  · exact Or.inl hfetch
  · right
    have hmem : tm ∈ (run Sys.start tr).timers := List.getElem?_mem hti
    obtain ⟨t, hterm, hd⟩ := timers_justified tr tm hmem
    refine ⟨i, tm, t, he, hti, hj, by rw [← hj]; exact hterm, by rw [← hd]; exact hdue, ?_⟩
    intro hids
    have hinv := oneStream_run tr Sys.start OneStreamPerJob.start (by simpa [Sys.start] using hids)
    exact hinv.timerTerminal tm hmem entry (by rw [hj]; exact hbefore)

/-- C3, witness: the running example; the timer of `abc123` runs 3000 ms after
its `completed` update. -/
theorem C3_removal_after_grace_witness :
    (∃ resp, Event.timerFires 0 = Event.activeJobsFetched resp) ∨
    ∃ (i : Nat) (tm : Timer) (t : Nat),
      Event.timerFires 0 = Event.timerFires i ∧
      (run Sys.start completedTrace).timers[i]? = some tm ∧ tm.jobId = "abc123" ∧
      TerminalUpdateAt completedTrace "abc123" t ∧
      t + removalDelay ≤ (run Sys.start completedTrace).now ∧
      ((startedIdsOf completedTrace).Nodup →
        isTerminalState (field
          [("state", JsVal.str "completed"), ("progress", JsVal.str "5/5"),
           ("current_target", JsVal.str "done"), ("config_name", JsVal.str "Example")]
          "state") = true) :=
  C3_removal_after_grace completedTrace (Event.timerFires 0) "abc123"
    [("state", JsVal.str "completed"), ("progress", JsVal.str "5/5"),
     ("current_target", JsVal.str "done"), ("config_name", JsVal.str "Example")]
    (by decide) (by decide)

/-- C9, counterexample: the launch of job `abc123` settles, then the initial
`/jobs/active` request settles with a list that contains `abc123`: two open
channels exist for that job. The `completed` update then arrives on both and
two removal timers are pending for `abc123`; both run. -/
theorem C9_two_channels_two_timers :
    (run Sys.start raceTrace).channels
      = [{ jobId := "abc123", configName := JsVal.str "Example", closed := false },
         { jobId := "abc123", configName := JsVal.str "Example", closed := false }] ∧
    (run Sys.start raceTerminated).timers
      = [{ jobId := "abc123", due := 3000 }, { jobId := "abc123", due := 3000 }] ∧
    firedJobs Sys.start
      (raceTerminated ++ [Event.advance 3000, Event.timerFires 0, Event.timerFires 0])
      = ["abc123", "abc123"] := by
  decide

/-- C9, amended: a terminal update handled by an open channel always sets a
new removal timer, pending timers are not looked at. In an execution in
which no job id is handed to `startProgressStream` twice, there is one
channel per job id, at most one pending removal timer per job id, a job with
a pending timer has no open channel, and no job's removal callback runs
twice. -/
theorem C9_one_channel_one_timer (tr : List Event) (hids : (startedIdsOf tr).Nodup) :
    ((run Sys.start tr).channels.map Channel.jobId).Nodup ∧
    ((run Sys.start tr).timers.map Timer.jobId).Nodup ∧
    (∀ tm ∈ (run Sys.start tr).timers, ∀ ch ∈ (run Sys.start tr).channels,
      ch.jobId = tm.jobId → ch.closed = true) ∧
    (firedJobs Sys.start tr).Nodup ∧
    (∀ (σ : Sys) (c : Nat) (ch : Channel) (data : Entry),
      σ.channels[c]? = some ch → ch.closed = false →
      isTerminalState (field data "state") = true →
      (step σ (Event.message c (Payload.object data))).timers
        = σ.timers ++ [{ jobId := ch.jobId, due := σ.now + removalDelay }]) := by
  have hfresh : (Sys.start.channels.map Channel.jobId ++ startedIdsOf tr).Nodup := by
    simpa [Sys.start] using hids
  have hinv := oneStream_run tr Sys.start OneStreamPerJob.start hfresh
  have hfired := fired_nodup tr Sys.start [] OneStreamPerJob.start
    ⟨List.nodup_nil, by simp, by simp, by simp⟩ hfresh
  refine ⟨hinv.channelIds, hinv.timerIds, hinv.timerClosed, by simpa using hfired, ?_⟩
  intro σ c ch data hch hopen hterm
  simp only [step, deliverMessage_open σ c ch _ hch hopen, onmessage, hterm, if_true]

/-- C9, witness: the bulk launch of jobs `1` and `2`, which both end and are
removed once each. -/
theorem C9_one_channel_one_timer_witness :
    ((run Sys.start bulkTrace).channels.map Channel.jobId).Nodup ∧
    (firedJobs Sys.start bulkTrace).Nodup ∧
    firedJobs Sys.start bulkTrace = ["1", "2"] :=
  ⟨(C9_one_channel_one_timer bulkTrace (by decide)).1,
   (C9_one_channel_one_timer bulkTrace (by decide)).2.2.2.1,
   by decide⟩

end ScanConsole
